import Mathlib

/-!
Verification development for the Personal Finance App.

The repository ships a React frontend (`frontend/src/pages/*.jsx`) over a
FastAPI backend. The frontend pages under `src/` are embedded directly;
monetary amounts are modelled as rationals and JavaScript strings as Lean
strings. The backend analytics and valuation engine (`backend/app`) is not
part of the available sources, so those operations are modelled from the
specification, each such definition marked `Modelled from the spec:`.
-/

namespace PersonalFinance

/-- A transaction record as the frontend receives it from the API:
`transaction_type` is one of "income" / "expense" / "transfer", `amount` is a
(positive, per the data-model invariant) monetary amount, `category` is the
optional free-text label, and `month` abstracts the transaction date as an
absolute calendar-month index (year × 12 + month). -/
structure Transaction where
  transaction_type : String
  amount : ℚ
  category : Option String := none
  month : ℕ := 0
deriving Repr, DecidableEq

/-- Embeds `getTotalIncome` of `Transactions.jsx`: filter the loaded
transactions to type `income` and reduce by adding `amount` from 0. -/
def getTotalIncome (transactions : List Transaction) : ℚ :=
  (transactions.filter (fun t => t.transaction_type == "income")).foldl
    (fun sum t => sum + t.amount) 0

/-- Embeds `getTotalExpenses` of `Transactions.jsx`: filter to type `expense`
and reduce by adding `amount` from 0. -/
def getTotalExpenses (transactions : List Transaction) : ℚ :=
  (transactions.filter (fun t => t.transaction_type == "expense")).foldl
    (fun sum t => sum + t.amount) 0

/-- Embeds the Net figure of the Transactions page summary card:
`getTotalIncome() - getTotalExpenses()`. -/
def netDisplayed (transactions : List Transaction) : ℚ :=
  getTotalIncome transactions - getTotalExpenses transactions

/-- Spec-side reading of "Total Income": the sum of amounts of transactions
whose `transaction_type` is `income`, every other type contributing 0. -/
def incomeSumSpec (transactions : List Transaction) : ℚ :=
  (transactions.map (fun t => if t.transaction_type = "income" then t.amount else 0)).sum

/-- Spec-side reading of "Total Expenses". -/
def expenseSumSpec (transactions : List Transaction) : ℚ :=
  (transactions.map (fun t => if t.transaction_type = "expense" then t.amount else 0)).sum

lemma foldl_add_amount (l : List Transaction) (a : ℚ) :
    l.foldl (fun sum t => sum + t.amount) a = a + (l.map (fun t => t.amount)).sum := by
  induction l generalizing a with
  | nil => simp
  | cons t l ih => simp [ih, add_assoc]

lemma sum_ite_eq_sum_filter (p : Transaction → Bool) (l : List Transaction) :
    (l.map (fun t => if p t then t.amount else 0)).sum
      = ((l.filter p).map (fun t => t.amount)).sum := by
  induction l with
  | nil => rfl
  | cons t l ih =>
    by_cases hp : p t <;> simp [List.filter_cons, hp, ih]

lemma getTotalIncome_eq_spec (l : List Transaction) :
    getTotalIncome l = incomeSumSpec l := by
  rw [getTotalIncome, incomeSumSpec, foldl_add_amount, zero_add,
    ← sum_ite_eq_sum_filter (fun t => t.transaction_type == "income")]
  simp

lemma getTotalExpenses_eq_spec (l : List Transaction) :
    getTotalExpenses l = expenseSumSpec l := by
  rw [getTotalExpenses, expenseSumSpec, foldl_add_amount, zero_add,
    ← sum_ite_eq_sum_filter (fun t => t.transaction_type == "expense")]
  simp

/-- C1: on the Transactions page the displayed Net equals Total Income minus
Total Expenses, where Total Income (resp. Total Expenses) is the sum of the
amounts of transactions of type `income` (resp. `expense`); a transaction of
type `transfer` contributes to neither sum, so adding one changes nothing. -/
theorem transactions_net_is_income_minus_expenses
    (transactions : List Transaction) (t : Transaction)
    (h : t.transaction_type = "transfer") :
    netDisplayed transactions = incomeSumSpec transactions - expenseSumSpec transactions ∧
    getTotalIncome (t :: transactions) = getTotalIncome transactions ∧
    getTotalExpenses (t :: transactions) = getTotalExpenses transactions := by
  refine ⟨by rw [netDisplayed, getTotalIncome_eq_spec, getTotalExpenses_eq_spec], ?_, ?_⟩
  · rw [getTotalIncome_eq_spec, getTotalIncome_eq_spec, incomeSumSpec, incomeSumSpec]
    simp [h]
  · rw [getTotalExpenses_eq_spec, getTotalExpenses_eq_spec, expenseSumSpec, expenseSumSpec]
    simp [h]

/-- Concrete instance of C1: income 100 and 50, expense 30, one transfer 999;
Net shown is 120 and the transfer moves neither total. -/
theorem transactions_net_witness :
    (Transaction.mk "transfer" 999 none 0).transaction_type = "transfer" ∧
    (netDisplayed [⟨"income", 100, none, 0⟩, ⟨"expense", 30, none, 0⟩, ⟨"income", 50, none, 0⟩]
        = incomeSumSpec [⟨"income", 100, none, 0⟩, ⟨"expense", 30, none, 0⟩, ⟨"income", 50, none, 0⟩]
          - expenseSumSpec [⟨"income", 100, none, 0⟩, ⟨"expense", 30, none, 0⟩, ⟨"income", 50, none, 0⟩] ∧
      getTotalIncome ((⟨"transfer", 999, none, 0⟩ : Transaction) ::
          [⟨"income", 100, none, 0⟩, ⟨"expense", 30, none, 0⟩, ⟨"income", 50, none, 0⟩])
        = getTotalIncome [⟨"income", 100, none, 0⟩, ⟨"expense", 30, none, 0⟩, ⟨"income", 50, none, 0⟩] ∧
      getTotalExpenses ((⟨"transfer", 999, none, 0⟩ : Transaction) ::
          [⟨"income", 100, none, 0⟩, ⟨"expense", 30, none, 0⟩, ⟨"income", 50, none, 0⟩])
        = getTotalExpenses [⟨"income", 100, none, 0⟩, ⟨"expense", 30, none, 0⟩, ⟨"income", 50, none, 0⟩]) :=
  ⟨rfl, transactions_net_is_income_minus_expenses _ _ rfl⟩

/-- An account record: `account_type` is one of the seven type strings offered
by the Accounts form, `balance` the stored signed balance. -/
structure Account where
  account_type : String
  balance : ℚ
deriving Repr, DecidableEq

/-- Embeds `getTotalBalance` of `Accounts.jsx`: `accounts.reduce((sum, acc) =>
sum + acc.balance, 0)` — the raw signed sum over all accounts, with no
partition by type and no absolute value. -/
def getTotalBalance (accounts : List Account) : ℚ :=
  accounts.foldl (fun sum acc => sum + acc.balance) 0

/-- The seven account types offered by the Accounts form. -/
def accountTypes : List String :=
  ["checking", "savings", "credit_card", "investment", "crypto", "loan", "other"]

/-- Modelled from the spec: the backend net-worth analytics partitions account
types into assets {checking, savings, investment, crypto, other} and
liabilities {credit_card, loan}. This predicate marks the liability types. -/
def isLiabilityType (t : String) : Bool :=
  t == "credit_card" || t == "loan"

/-- Modelled from the spec: the asset account types. -/
def isAssetType (t : String) : Bool :=
  t == "checking" || t == "savings" || t == "investment" || t == "crypto" || t == "other"

/-- Modelled from the spec: `total_assets = Σ balance` over asset accounts
(the backend analytics route is not among the available sources). -/
def totalAssets (accounts : List Account) : ℚ :=
  ((accounts.filter (fun a => isAssetType a.account_type)).map (fun a => a.balance)).sum

/-- Modelled from the spec: `total_liabilities = Σ |balance|` over liability
accounts. -/
def totalLiabilities (accounts : List Account) : ℚ :=
  ((accounts.filter (fun a => isLiabilityType a.account_type)).map (fun a => |a.balance|)).sum

/-- Modelled from the spec: `net_worth = total_assets − total_liabilities`. -/
def netWorth (accounts : List Account) : ℚ :=
  totalAssets accounts - totalLiabilities accounts

lemma foldl_add_balance (l : List Account) (a : ℚ) :
    l.foldl (fun sum acc => sum + acc.balance) a = a + (l.map (fun acc => acc.balance)).sum := by
  induction l generalizing a with
  | nil => simp
  | cons x l ih => simp [ih, add_assoc]

lemma getTotalBalance_eq_sum (accounts : List Account) :
    getTotalBalance accounts = (accounts.map (fun a => a.balance)).sum := by
  rw [getTotalBalance, foldl_add_balance, zero_add]

lemma asset_liability_dichotomy (t : String) (ht : t ∈ accountTypes) :
    (isAssetType t ∧ ¬ isLiabilityType t) ∨ (¬ isAssetType t ∧ isLiabilityType t) := by
  simp only [accountTypes, List.mem_cons, List.not_mem_nil, or_false] at ht
  rcases ht with h1 | h1 | h1 | h1 | h1 | h1 | h1 <;>
    simp [isAssetType, isLiabilityType, h1]

lemma sum_map_filter_add_filter_not (p : Account → Bool) (f : Account → ℚ) (l : List Account) :
    ((l.filter p).map f).sum + ((l.filter (fun a => ! p a)).map f).sum = (l.map f).sum := by
  induction l with
  | nil => simp
  | cons a l ih =>
    by_cases hp : p a <;> simp [List.filter_cons, hp, ← ih] <;> ring

lemma sum_map_add_sum_map (f g : Account → ℚ) (l : List Account) :
    (l.map f).sum + (l.map g).sum = (l.map (fun a => f a + g a)).sum := by
  induction l with
  | nil => simp
  | cons a l ih => simp [← ih]; ring

/-- C3: net worth partitions accounts by type — every account of a legal type
is counted in exactly one of the two sums, `total_assets` adds stored balances
of asset accounts, `total_liabilities` adds absolute values of balances of
liability accounts, `net_worth` is their difference; the spec scenario
(checking 5000, credit card −1200) yields 3800. -/
theorem net_worth_partitions_accounts (accounts : List Account)
    (h : ∀ a ∈ accounts, a.account_type ∈ accountTypes) :
    netWorth accounts = totalAssets accounts - totalLiabilities accounts ∧
    totalAssets accounts
      = ((accounts.filter (fun a => isAssetType a.account_type)).map (fun a => a.balance)).sum ∧
    totalLiabilities accounts
      = ((accounts.filter (fun a => isLiabilityType a.account_type)).map (fun a => |a.balance|)).sum ∧
    (∀ a ∈ accounts, (isAssetType a.account_type ∧ ¬ isLiabilityType a.account_type) ∨
      (¬ isAssetType a.account_type ∧ isLiabilityType a.account_type)) ∧
    netWorth [⟨"checking", 5000⟩, ⟨"credit_card", -1200⟩] = 3800 := by
  refine ⟨rfl, rfl, rfl, ?_,
    by simp [netWorth, totalAssets, totalLiabilities, isAssetType, isLiabilityType,
      List.filter_cons]
       norm_num⟩
  exact fun a ha => asset_liability_dichotomy _ (h a ha)

/-- Concrete instance of C3 at the spec's scenario accounts. -/
theorem net_worth_partitions_accounts_witness :
    (∀ a ∈ ([⟨"checking", 5000⟩, ⟨"credit_card", -1200⟩] : List Account),
      a.account_type ∈ accountTypes) ∧
    (netWorth [⟨"checking", 5000⟩, ⟨"credit_card", -1200⟩]
        = totalAssets [⟨"checking", 5000⟩, ⟨"credit_card", -1200⟩]
          - totalLiabilities [⟨"checking", 5000⟩, ⟨"credit_card", -1200⟩] ∧
      totalAssets [⟨"checking", 5000⟩, ⟨"credit_card", -1200⟩]
        = ((([⟨"checking", 5000⟩, ⟨"credit_card", -1200⟩] : List Account).filter
            (fun a => isAssetType a.account_type)).map (fun a => a.balance)).sum ∧
      totalLiabilities [⟨"checking", 5000⟩, ⟨"credit_card", -1200⟩]
        = ((([⟨"checking", 5000⟩, ⟨"credit_card", -1200⟩] : List Account).filter
            (fun a => isLiabilityType a.account_type)).map (fun a => |a.balance|)).sum ∧
      (∀ a ∈ ([⟨"checking", 5000⟩, ⟨"credit_card", -1200⟩] : List Account),
        (isAssetType a.account_type ∧ ¬ isLiabilityType a.account_type) ∨
          (¬ isAssetType a.account_type ∧ isLiabilityType a.account_type)) ∧
      netWorth [⟨"checking", 5000⟩, ⟨"credit_card", -1200⟩] = 3800) :=
  ⟨by decide, net_worth_partitions_accounts _ (by decide)⟩

/-- C8: the Accounts page's Total Balance is the raw signed sum of all account
balances — no absolute value, no partition by type — and therefore differs
from the net-worth figure whenever some liability account stores a positive
balance. -/
theorem accounts_total_balance_raw_sum (accounts : List Account)
    (h : ∀ a ∈ accounts, a.account_type ∈ accountTypes)
    (a0 : Account) (ha0 : a0 ∈ accounts)
    (hliab : isLiabilityType a0.account_type) (hpos : 0 < a0.balance) :
    getTotalBalance accounts = (accounts.map (fun a => a.balance)).sum ∧
    getTotalBalance accounts ≠ netWorth accounts := by
  refine ⟨getTotalBalance_eq_sum accounts, ?_⟩
  have hfilter : accounts.filter (fun a => ! isAssetType a.account_type)
      = accounts.filter (fun a => isLiabilityType a.account_type) := by
    apply List.filter_congr
    intro a ha
    rcases asset_liability_dichotomy _ (h a ha) with ⟨h1, h2⟩ | ⟨h1, h2⟩ <;>
      simp_all
  have hsplit := sum_map_filter_add_filter_not
    (fun a => isAssetType a.account_type) (fun a => a.balance) accounts
  rw [hfilter] at hsplit
  have hdiff : getTotalBalance accounts - netWorth accounts
      = ((accounts.filter (fun a => isLiabilityType a.account_type)).map
          (fun a => a.balance + |a.balance|)).sum := by
    rw [getTotalBalance_eq_sum, netWorth, totalAssets, totalLiabilities,
      ← sum_map_add_sum_map, ← hsplit]
    ring
  have hmem0 : a0 ∈ accounts.filter (fun a => isLiabilityType a.account_type) :=
    List.mem_filter.mpr ⟨ha0, hliab⟩
  have hterm : a0.balance + |a0.balance|
      ∈ (accounts.filter (fun a => isLiabilityType a.account_type)).map
          (fun a => a.balance + |a.balance|) :=
    List.mem_map_of_mem _ hmem0
  have hge : a0.balance + |a0.balance|
      ≤ ((accounts.filter (fun a => isLiabilityType a.account_type)).map
          (fun a => a.balance + |a.balance|)).sum := by
    apply List.single_le_sum _ _ hterm
    intro x hx
    rcases List.mem_map.mp hx with ⟨a, _, rfl⟩
    have := neg_abs_le a.balance
    linarith
  have hpos2 : 0 < a0.balance + |a0.balance| := by
    rw [abs_of_pos hpos]; linarith
  intro heq
  rw [heq, sub_self] at hdiff
  linarith [hdiff ▸ lt_of_lt_of_le hpos2 hge]

/-- Concrete instance of C8: checking 5000 and a credit card storing +1200
give Total Balance 6200 while net worth is 3800. -/
theorem accounts_total_balance_raw_sum_witness :
    (∀ a ∈ ([⟨"checking", 5000⟩, ⟨"credit_card", 1200⟩] : List Account),
      a.account_type ∈ accountTypes) ∧
    (⟨"credit_card", 1200⟩ : Account) ∈ ([⟨"checking", 5000⟩, ⟨"credit_card", 1200⟩] : List Account) ∧
    isLiabilityType (Account.mk "credit_card" 1200).account_type ∧
    0 < (Account.mk "credit_card" 1200).balance ∧
    (getTotalBalance [⟨"checking", 5000⟩, ⟨"credit_card", 1200⟩]
        = (([⟨"checking", 5000⟩, ⟨"credit_card", 1200⟩] : List Account).map
            (fun a => a.balance)).sum ∧
      getTotalBalance [⟨"checking", 5000⟩, ⟨"credit_card", 1200⟩]
        ≠ netWorth [⟨"checking", 5000⟩, ⟨"credit_card", 1200⟩]) :=
  ⟨by decide, by simp, by decide, by norm_num,
    accounts_total_balance_raw_sum _ (by decide) ⟨"credit_card", 1200⟩ (by simp)
      (by decide) (by norm_num)⟩

/-- An investment holding: quantity, purchase price per unit, and the cached
current price, which is absent until the first successful refresh. -/
structure Investment where
  quantity : ℚ
  purchase_price : ℚ
  current_price : Option ℚ := none
deriving Repr, DecidableEq

/-- Modelled from the spec: the valuation engine's effective current price —
the cached quote, falling back to the purchase price when none was ever
fetched (the backend valuation service is not among the available sources). -/
def effectivePrice (inv : Investment) : ℚ :=
  inv.current_price.getD inv.purchase_price

/-- Modelled from the spec: `current_value = quantity × current_price`. -/
def currentValue (inv : Investment) : ℚ :=
  inv.quantity * effectivePrice inv

/-- Modelled from the spec: `cost_basis = quantity × purchase_price`. -/
def costBasis (inv : Investment) : ℚ :=
  inv.quantity * inv.purchase_price

/-- Modelled from the spec: `gain_loss = current_value − cost_basis`. -/
def gainLoss (inv : Investment) : ℚ :=
  currentValue inv - costBasis inv

/-- Modelled from the spec: `gain_loss_percentage = 100 × gain_loss /
cost_basis`, defined as 0 when the cost basis is 0 so that no division by
zero can occur. -/
def gainLossPercentage (inv : Investment) : ℚ :=
  if costBasis inv = 0 then 0 else 100 * gainLoss inv / costBasis inv

/-- C2: for every investment valuation, `gain_loss` is exactly
`current_value − cost_basis`, and `gain_loss_percentage` is
`100 × gain_loss / cost_basis` except that a zero cost basis yields 0 —
total functions of the record, never a division-by-zero error; the spec
scenario (quantity 10, purchase 150, current 180) comes out as cost basis
1500, value 1800, gain 300, percentage 20. -/
theorem investment_gain_loss_valuation (inv : Investment) :
    gainLoss inv = currentValue inv - costBasis inv ∧
    (costBasis inv = 0 → gainLossPercentage inv = 0) ∧
    (costBasis inv ≠ 0 → gainLossPercentage inv = 100 * gainLoss inv / costBasis inv) ∧
    (costBasis ⟨10, 150, some 180⟩ = 1500 ∧ currentValue ⟨10, 150, some 180⟩ = 1800 ∧
      gainLoss ⟨10, 150, some 180⟩ = 300 ∧ gainLossPercentage ⟨10, 150, some 180⟩ = 20) := by
  refine ⟨rfl, fun h => by rw [gainLossPercentage, if_pos h],
    fun h => by rw [gainLossPercentage, if_neg h], ?_, ?_, ?_, ?_⟩ <;>
    norm_num [gainLossPercentage, gainLoss, currentValue, costBasis, effectivePrice]

/-- Concrete instance of C2 at a zero-cost-basis holding: the percentage is 0
rather than an error. -/
theorem investment_gain_loss_valuation_witness :
    costBasis ⟨0, 150, some 180⟩ = 0 ∧ gainLossPercentage ⟨0, 150, some 180⟩ = 0 :=
  ⟨by norm_num [costBasis],
    (investment_gain_loss_valuation ⟨0, 150, some 180⟩).2.1 (by norm_num [costBasis])⟩

/-- The failure modes of the Price Oracle named by the spec. -/
inductive OracleError where
  | notFound
  | unavailable
  | timeout
deriving Repr, DecidableEq

/-- Modelled from the spec: the backend refresh-price operation (its route is
not among the available sources). Given the holding and the oracle's reply,
on success it persists the new price and reports it; on failure it leaves the
stored record untouched and reports the error as a value — the operation
returns in both cases rather than raising. -/
def refreshPrice (inv : Investment) (quote : Except OracleError ℚ) :
    Investment × Except OracleError ℚ :=
  match quote with
  | Except.ok p => ({ inv with current_price := some p }, Except.ok p)
  | Except.error e => (inv, Except.error e)

/-- C6: when the Price Oracle call fails, the stored record — in particular
its cached `current_price` — is left unchanged, the outcome is the reported
error, and it is distinct from any successful outcome; the operation is a
total function, so it is never fatal to the caller. -/
theorem refresh_price_failure_keeps_price (inv : Investment) (e : OracleError) (p : ℚ) :
    (refreshPrice inv (Except.error e)).1 = inv ∧
    (refreshPrice inv (Except.error e)).1.current_price = inv.current_price ∧
    (refreshPrice inv (Except.error e)).2 = Except.error e ∧
    (refreshPrice inv (Except.error e)).2 ≠ (refreshPrice inv (Except.ok p)).2 ∧
    (refreshPrice inv (Except.ok p)).1.current_price = some p :=
  ⟨rfl, rfl, rfl, fun h => Except.noConfusion h, rfl⟩

/-- A budget: a category label, the budgeted amount, and a period that is
either "monthly" or "yearly". -/
structure Budget where
  category : String
  amount : ℚ
  period : String := "monthly"
deriving Repr, DecidableEq

/-- Modelled from the spec: whether a transaction's month falls inside the
budget's current period window — the current calendar month for a monthly
budget, the current calendar year (twelve-month block of the absolute month
index) for a yearly one. -/
def inPeriod (period : String) (currentMonth : ℕ) (t : Transaction) : Bool :=
  if period == "yearly" then t.month / 12 == currentMonth / 12
  else t.month == currentMonth

/-- Modelled from the spec: `spent` — the sum of amounts of expense
transactions in the current period window whose category matches the budget's
(the backend budget service is not among the available sources). -/
def budgetSpent (b : Budget) (currentMonth : ℕ) (ts : List Transaction) : ℚ :=
  ((ts.filter (fun t => t.transaction_type == "expense"
      && t.category == some b.category && inPeriod b.period currentMonth t)).map
    (fun t => t.amount)).sum

/-- Modelled from the spec: `remaining = amount − spent`, allowed to go
negative when over budget. -/
def budgetRemaining (b : Budget) (currentMonth : ℕ) (ts : List Transaction) : ℚ :=
  b.amount - budgetSpent b currentMonth ts

/-- Modelled from the spec: `percentage_used = 100 × spent / amount`,
defined as 0 when the budgeted amount is 0, and not capped at 100. -/
def percentageUsed (b : Budget) (currentMonth : ℕ) (ts : List Transaction) : ℚ :=
  if b.amount = 0 then 0 else 100 * budgetSpent b currentMonth ts / b.amount

/-- Embeds the progress-bar width of `Budgets.jsx`:
`Math.min(budget.percentage_used, 100)` — a display-layer clamp. -/
def progressBarWidth (percentage : ℚ) : ℚ :=
  min percentage 100

/-- Embeds the percentage figure printed by `Budgets.jsx`
(`budget.percentage_used.toFixed(1)`): the reported number itself, with no
clamping. -/
def displayedPercentage (percentage : ℚ) : ℚ :=
  percentage

/-- C4: `remaining = amount − spent` (negative when over budget, not
clamped); `percentage_used` is 0 when the amount is 0 and otherwise exactly
`100 × spent / amount` with no cap, so over-100 values are surfaced as-is by
the displayed figure — only the progress-bar width is clamped, at the display
layer; the spec scenario (amount 500, spent 650) gives remaining −150 and
percentage 130. -/
theorem budget_remaining_and_percentage (b : Budget) (currentMonth : ℕ)
    (ts : List Transaction) (h0 : b.amount = 0) :
    budgetRemaining b currentMonth ts = b.amount - budgetSpent b currentMonth ts ∧
    percentageUsed b currentMonth ts = 0 ∧
    (∀ b' : Budget, b'.amount ≠ 0 →
      percentageUsed b' currentMonth ts = 100 * budgetSpent b' currentMonth ts / b'.amount ∧
      displayedPercentage (percentageUsed b' currentMonth ts)
        = percentageUsed b' currentMonth ts) ∧
    (budgetSpent ⟨"Food", 500, "monthly"⟩ 0 [⟨"expense", 650, some "Food", 0⟩] = 650 ∧
      budgetRemaining ⟨"Food", 500, "monthly"⟩ 0 [⟨"expense", 650, some "Food", 0⟩] = -150 ∧
      percentageUsed ⟨"Food", 500, "monthly"⟩ 0 [⟨"expense", 650, some "Food", 0⟩] = 130 ∧
      progressBarWidth 130 = 100 ∧ displayedPercentage 130 = 130) := by
  refine ⟨rfl, by rw [percentageUsed, if_pos h0], fun b' hb' => ⟨?_, rfl⟩, ?_, ?_, ?_, ?_, rfl⟩
  · rw [percentageUsed, if_neg hb']
  · simp [budgetSpent, inPeriod, List.filter_cons]
  · simp [budgetRemaining, budgetSpent, inPeriod, List.filter_cons]
    norm_num
  · simp [percentageUsed, budgetSpent, inPeriod, List.filter_cons]
    norm_num
  · rw [progressBarWidth]
    norm_num

/-- Concrete instance of C4 at a zero-amount budget: percentage used is 0. -/
theorem budget_remaining_and_percentage_witness :
    (Budget.mk "Empty" 0 "monthly").amount = 0 ∧
    percentageUsed ⟨"Empty", 0, "monthly"⟩ 0 [] = 0 :=
  ⟨rfl, (budget_remaining_and_percentage ⟨"Empty", 0, "monthly"⟩ 0 [] rfl).2.1⟩

/-- One month's bucket of the income/expense trend. -/
structure TrendBucket where
  month : ℕ
  income : ℚ
  expenses : ℚ
  net : ℚ
deriving Repr, DecidableEq

/-- Modelled from the spec: one calendar month's trend bucket — income and
expense sums of the transactions dated in that month, and their difference
(the backend analytics route is not among the available sources). -/
def trendBucket (ts : List Transaction) (m : ℕ) : TrendBucket :=
  let income := ((ts.filter (fun t => t.transaction_type == "income" && t.month == m)).map
    (fun t => t.amount)).sum
  let expenses := ((ts.filter (fun t => t.transaction_type == "expense" && t.month == m)).map
    (fun t => t.amount)).sum
  ⟨m, income, expenses, income - expenses⟩

/-- Modelled from the spec: the N-month income/expense trend anchored to the
current month — one bucket per calendar month, oldest first. -/
def incomeExpensesTrend (ts : List Transaction) (currentMonth n : ℕ) : List TrendBucket :=
  (List.range n).map (fun i => trendBucket ts (currentMonth + 1 - n + i))

/-- C5: an N-month trend request yields exactly N buckets whose months are
the contiguous ascending run ending at the current month (oldest to newest),
and a month with no transactions yields a bucket with income 0, expenses 0
and net 0 rather than being omitted. -/
theorem monthly_trend_buckets (ts : List Transaction) (currentMonth n : ℕ)
    (hn : n ≤ currentMonth + 1) :
    (incomeExpensesTrend ts currentMonth n).length = n ∧
    (incomeExpensesTrend ts currentMonth n).map TrendBucket.month
      = (List.range n).map (fun i => currentMonth + 1 - n + i) ∧
    (∀ i, i + 1 < n →
      ((incomeExpensesTrend ts currentMonth n).map TrendBucket.month)[i + 1]?
        = ((incomeExpensesTrend ts currentMonth n).map TrendBucket.month)[i]?.map (· + 1)) ∧
    (0 < n → ((incomeExpensesTrend ts currentMonth n).map TrendBucket.month).getLast?
      = some currentMonth) ∧
    (∀ m, (∀ t ∈ ts, t.month ≠ m) → trendBucket ts m = ⟨m, 0, 0, 0⟩) := by
  refine ⟨by simp [incomeExpensesTrend], by simp [incomeExpensesTrend, trendBucket], ?_, ?_, ?_⟩
  · intro i hi
    have h1 : i + 1 < (List.range n).length := by simpa using hi
    have h2 : i < (List.range n).length := by simpa using Nat.lt_of_succ_lt hi
    simp only [incomeExpensesTrend, List.map_map]
    rw [List.getElem?_map, List.getElem?_map,
      List.getElem?_eq_getElem h1, List.getElem?_eq_getElem h2]
    simp only [List.getElem_range, Option.map_some, Option.map_map, Function.comp]
    simp [trendBucket]
    omega
  · intro hpos
    simp only [incomeExpensesTrend, List.map_map]
    rw [List.getLast?_eq_getElem?]
    simp only [List.length_map, List.length_range]
    have h1 : n - 1 < (List.range n).length := by
      rw [List.length_range]; omega
    rw [List.getElem?_map, List.getElem?_eq_getElem h1]
    simp only [List.getElem_range, Option.map_some, Option.map_some', Function.comp_apply,
      Function.comp, trendBucket]
    congr 1
    omega
  · intro m hm
    have hfilter : ∀ ty : String,
        ts.filter (fun t => t.transaction_type == ty && t.month == m) = [] := by
      intro ty
      rw [List.filter_eq_nil_iff]
      intro t ht
      have := hm t ht
      simp [this]
    rw [trendBucket]
    simp [hfilter]

/-- Concrete instance of C5: a 3-month trend at current month 10 over a list
with one lone transaction in month 9 — three buckets, months 8, 9, 10, ending
at the current month, and empty months zero-filled. -/
theorem monthly_trend_buckets_witness :
    3 ≤ 10 + 1 ∧
    ((incomeExpensesTrend [⟨"income", 40, none, 9⟩] 10 3).length = 3 ∧
      (incomeExpensesTrend [⟨"income", 40, none, 9⟩] 10 3).map TrendBucket.month
        = (List.range 3).map (fun i => 10 + 1 - 3 + i) ∧
      (∀ i, i + 1 < 3 →
        ((incomeExpensesTrend [⟨"income", 40, none, 9⟩] 10 3).map TrendBucket.month)[i + 1]?
          = ((incomeExpensesTrend [⟨"income", 40, none, 9⟩] 10 3).map
              TrendBucket.month)[i]?.map (· + 1)) ∧
      (0 < 3 → ((incomeExpensesTrend [⟨"income", 40, none, 9⟩] 10 3).map
          TrendBucket.month).getLast? = some 10) ∧
      (∀ m, (∀ t ∈ [(⟨"income", 40, none, 9⟩ : Transaction)], t.month ≠ m) →
        trendBucket [⟨"income", 40, none, 9⟩] m = ⟨m, 0, 0, 0⟩)) :=
  ⟨by norm_num, monthly_trend_buckets [⟨"income", 40, none, 9⟩] 10 3 (by norm_num)⟩

/-- Modelled from the spec: the grouping key of a transaction for the
category breakdown — its category, or "Uncategorized" when absent. -/
def catKey (t : Transaction) : String :=
  t.category.getD "Uncategorized"

/-- The expense transactions of a list. -/
def expenseTxns (ts : List Transaction) : List Transaction :=
  ts.filter (fun t => t.transaction_type == "expense")

/-- Modelled from the spec: `total_spending = Σ amount` over all expense
transactions in range. -/
def totalSpending (ts : List Transaction) : ℚ :=
  ((expenseTxns ts).map (fun t => t.amount)).sum

/-- The distinct category keys occurring among the expense transactions. -/
def categoriesOf (ts : List Transaction) : List String :=
  ((expenseTxns ts).map catKey).dedup

/-- Modelled from the spec: one group's summed amount. -/
def groupAmount (ts : List Transaction) (c : String) : ℚ :=
  (((expenseTxns ts).filter (fun t => catKey t == c)).map (fun t => t.amount)).sum

/-- One row of the category breakdown. -/
structure CategoryGroup where
  category : String
  amount : ℚ
  percentage : ℚ
deriving Repr, DecidableEq

/-- Modelled from the spec: a group with its percentage of total spending,
0 when total spending is 0. -/
def mkGroup (ts : List Transaction) (c : String) : CategoryGroup :=
  ⟨c, groupAmount ts c,
    if totalSpending ts = 0 then 0 else 100 * groupAmount ts c / totalSpending ts⟩

/-- Insertion into a list kept sorted by descending amount. -/
def insertByAmountDesc (g : CategoryGroup) : List CategoryGroup → List CategoryGroup
  | [] => [g]
  | h :: t => if h.amount ≤ g.amount then g :: h :: t else h :: insertByAmountDesc g t

/-- Insertion sort by descending amount. -/
def sortByAmountDesc (l : List CategoryGroup) : List CategoryGroup :=
  l.foldr insertByAmountDesc []

/-- Modelled from the spec: the spending-by-category breakdown — expense
transactions grouped by category key, one group per distinct key with its
summed amount and share of total spending, sorted by descending amount. -/
def spendingByCategory (ts : List Transaction) : List CategoryGroup :=
  sortByAmountDesc ((categoriesOf ts).map (mkGroup ts))

lemma insertByAmountDesc_perm (g : CategoryGroup) (l : List CategoryGroup) :
    List.Perm (insertByAmountDesc g l) (g :: l) := by
  induction l with
  | nil => exact List.Perm.refl _
  | cons h t ih =>
    rw [insertByAmountDesc]
    by_cases hc : h.amount ≤ g.amount
    · rw [if_pos hc]
    · rw [if_neg hc]
      exact (ih.cons h).trans (List.Perm.swap g h t)

lemma sortByAmountDesc_perm (l : List CategoryGroup) :
    List.Perm (sortByAmountDesc l) l := by
  induction l with
  | nil => exact List.Perm.refl _
  | cons h t ih =>
    have h1 : sortByAmountDesc (h :: t) = insertByAmountDesc h (sortByAmountDesc t) := rfl
    rw [h1]
    exact (insertByAmountDesc_perm h _).trans (ih.cons h)

lemma insertByAmountDesc_sorted (g : CategoryGroup) (l : List CategoryGroup)
    (hl : l.Pairwise (fun a b => b.amount ≤ a.amount)) :
    (insertByAmountDesc g l).Pairwise (fun a b => b.amount ≤ a.amount) := by
  induction l with
  | nil => simp [insertByAmountDesc]
  | cons h t ih =>
    rw [List.pairwise_cons] at hl
    rw [insertByAmountDesc]
    by_cases hc : h.amount ≤ g.amount
    · rw [if_pos hc, List.pairwise_cons]
      refine ⟨?_, List.pairwise_cons.mpr hl⟩
      intro x hx
      rcases List.mem_cons.mp hx with rfl | hx
      · exact hc
      · exact (hl.1 x hx).trans hc
    · rw [if_neg hc, List.pairwise_cons]
      refine ⟨?_, ih hl.2⟩
      intro x hx
      have hx' : x ∈ g :: t := (insertByAmountDesc_perm g t).mem_iff.mp hx
      rcases List.mem_cons.mp hx' with rfl | hx'
      · exact le_of_not_le hc
      · exact hl.1 x hx'

lemma sortByAmountDesc_sorted (l : List CategoryGroup) :
    (sortByAmountDesc l).Pairwise (fun a b => b.amount ≤ a.amount) := by
  induction l with
  | nil => simp [sortByAmountDesc]
  | cons h t ih => exact insertByAmountDesc_sorted h _ ih

lemma sum_ite_key (t : Transaction) (K : List String) (hK : K.Nodup) (hc : catKey t ∈ K) :
    (K.map (fun c => if catKey t == c then t.amount else 0)).sum = t.amount := by
  induction K with
  | nil => simp at hc
  | cons k K ih =>
    rw [List.nodup_cons] at hK
    rcases List.mem_cons.mp hc with hk | hk
    · have hkey : (catKey t == k) = true := by simp [hk]
      have hzero : ∀ c ∈ K, (if catKey t == c then t.amount else 0) = 0 := by
        intro c hcK
        have hne : catKey t ≠ c := by
          intro h
          have hkc : k = c := by rw [← hk, h]
          exact hK.1 (hkc ▸ hcK)
        simp [hne]
      rw [List.map_cons, List.sum_cons, if_pos hkey]
      have : (K.map (fun c => if catKey t == c then t.amount else 0)).sum = 0 := by
        apply List.sum_eq_zero
        intro x hx
        rcases List.mem_map.mp hx with ⟨c, hcK, rfl⟩
        exact hzero c hcK
      rw [this, add_zero]
    · have hkey : (catKey t == k) = false := by
        simp only [beq_eq_false_iff_ne, ne_eq]
        intro h
        exact hK.1 (h ▸ hk)
      rw [List.map_cons, List.sum_cons, if_neg (by simp_all), zero_add]
      exact ih hK.2 hk

lemma sum_map_add_sum_map' (f g : String → ℚ) (K : List String) :
    (K.map (fun c => f c + g c)).sum = (K.map f).sum + (K.map g).sum := by
  induction K with
  | nil => simp
  | cons k K ih => simp [ih]; ring

lemma sum_groupAmounts (l : List Transaction) (K : List String) (hK : K.Nodup)
    (hcover : ∀ t ∈ l, catKey t ∈ K) :
    (K.map (fun c => ((l.filter (fun t => catKey t == c)).map (fun t => t.amount)).sum)).sum
      = (l.map (fun t => t.amount)).sum := by
  induction l with
  | nil => simp
  | cons t l ih =>
    have hsplit : ∀ c : String,
        (((t :: l).filter (fun t => catKey t == c)).map (fun t => t.amount)).sum
          = (if catKey t == c then t.amount else 0)
            + ((l.filter (fun t => catKey t == c)).map (fun t => t.amount)).sum := by
      intro c
      by_cases hc : catKey t == c <;> simp [List.filter_cons, hc]
    have hcongr : (K.map (fun c =>
        (((t :: l).filter (fun t => catKey t == c)).map (fun t => t.amount)).sum)).sum
        = (K.map (fun c => (if catKey t == c then t.amount else 0)
            + ((l.filter (fun t => catKey t == c)).map (fun t => t.amount)).sum)).sum := by
      congr 1
      exact List.map_congr_left (fun c _ => hsplit c)
    rw [hcongr, sum_map_add_sum_map',
      sum_ite_key t K hK (hcover t (List.mem_cons_self t l)),
      ih (fun x hx => hcover x (List.mem_cons_of_mem t hx)),
      List.map_cons, List.sum_cons]

lemma sum_map_mul_left' (a : ℚ) (f : String → ℚ) (K : List String) :
    (K.map (fun c => a * f c)).sum = a * (K.map f).sum := by
  induction K with
  | nil => simp
  | cons k K ih => simp [ih]; ring

lemma categoriesOf_nodup (ts : List Transaction) : (categoriesOf ts).Nodup :=
  List.nodup_dedup _

lemma categoriesOf_cover (ts : List Transaction) :
    ∀ t ∈ expenseTxns ts, catKey t ∈ categoriesOf ts := by
  intro t ht
  exact List.mem_dedup.mpr (List.mem_map_of_mem catKey ht)

lemma sum_groupAmount_eq_totalSpending (ts : List Transaction) :
    ((categoriesOf ts).map (groupAmount ts)).sum = totalSpending ts :=
  sum_groupAmounts (expenseTxns ts) (categoriesOf ts)
    (categoriesOf_nodup ts) (categoriesOf_cover ts)

/-- C7: every group of the spending-by-category breakdown carries
`percentage = 100 × amount / total_spending` (0 when total spending is 0);
when total spending is positive the percentages sum to exactly 100; when
total spending is 0 the group list is empty (amounts being positive per the
data-model invariant); and the groups are sorted by descending amount. -/
theorem spending_by_category_breakdown (ts : List Transaction)
    (hpos : ∀ t ∈ ts, 0 < t.amount) :
    (∀ g ∈ spendingByCategory ts,
      g.percentage = if totalSpending ts = 0 then 0 else 100 * g.amount / totalSpending ts) ∧
    (0 < totalSpending ts →
      ((spendingByCategory ts).map (fun g => g.percentage)).sum = 100) ∧
    (totalSpending ts = 0 → spendingByCategory ts = []) ∧
    (spendingByCategory ts).Pairwise (fun a b => b.amount ≤ a.amount) := by
  refine ⟨?_, ?_, ?_, sortByAmountDesc_sorted _⟩
  · intro g hg
    have hg' : g ∈ (categoriesOf ts).map (mkGroup ts) :=
      (sortByAmountDesc_perm _).mem_iff.mp hg
    rcases List.mem_map.mp hg' with ⟨c, _, rfl⟩
    simp [mkGroup]
  · intro htotpos
    have htot : totalSpending ts ≠ 0 := ne_of_gt htotpos
    have hperm : List.Perm
        ((spendingByCategory ts).map (fun g => g.percentage))
        (((categoriesOf ts).map (mkGroup ts)).map (fun g => g.percentage)) :=
      (sortByAmountDesc_perm _).map _
    rw [hperm.sum_eq, List.map_map]
    have hcongr : ((categoriesOf ts).map ((fun g => g.percentage) ∘ mkGroup ts)).sum
        = ((categoriesOf ts).map (fun c => (100 / totalSpending ts) * groupAmount ts c)).sum := by
      congr 1
      apply List.map_congr_left
      intro c _
      simp only [Function.comp_apply, mkGroup, if_neg htot]
      ring
    rw [hcongr, sum_map_mul_left', sum_groupAmount_eq_totalSpending,
      div_mul_cancel₀ _ htot]
  · intro htot0
    have hexp : expenseTxns ts = [] := by
      by_contra hne
      have hposum : 0 < ((expenseTxns ts).map (fun t => t.amount)).sum := by
        apply List.sum_pos
        · intro x hx
          rcases List.mem_map.mp hx with ⟨t, ht, rfl⟩
          exact hpos t (List.mem_filter.mp ht).1
        · simpa using hne
      rw [totalSpending] at htot0
      rw [htot0] at hposum
      exact lt_irrefl 0 hposum
    simp [spendingByCategory, categoriesOf, hexp, sortByAmountDesc]

/-- Concrete instance of C7: expenses Food 60, uncategorized 30, Food 10 give
groups Food 70 (70%) then Uncategorized 30 (30%), summing to 100. -/
theorem spending_by_category_breakdown_witness :
    (∀ t ∈ ([⟨"expense", 60, some "Food", 0⟩, ⟨"expense", 30, none, 0⟩,
        ⟨"expense", 10, some "Food", 0⟩, ⟨"income", 5, none, 0⟩] : List Transaction),
      0 < t.amount) ∧
    ((∀ g ∈ spendingByCategory [⟨"expense", 60, some "Food", 0⟩, ⟨"expense", 30, none, 0⟩,
        ⟨"expense", 10, some "Food", 0⟩, ⟨"income", 5, none, 0⟩],
      g.percentage = if totalSpending [⟨"expense", 60, some "Food", 0⟩, ⟨"expense", 30, none, 0⟩,
          ⟨"expense", 10, some "Food", 0⟩, ⟨"income", 5, none, 0⟩] = 0 then 0
        else 100 * g.amount / totalSpending [⟨"expense", 60, some "Food", 0⟩,
          ⟨"expense", 30, none, 0⟩, ⟨"expense", 10, some "Food", 0⟩, ⟨"income", 5, none, 0⟩]) ∧
    (0 < totalSpending [⟨"expense", 60, some "Food", 0⟩, ⟨"expense", 30, none, 0⟩,
        ⟨"expense", 10, some "Food", 0⟩, ⟨"income", 5, none, 0⟩] →
      ((spendingByCategory [⟨"expense", 60, some "Food", 0⟩, ⟨"expense", 30, none, 0⟩,
          ⟨"expense", 10, some "Food", 0⟩, ⟨"income", 5, none, 0⟩]).map
        (fun g => g.percentage)).sum = 100) ∧
    (totalSpending [⟨"expense", 60, some "Food", 0⟩, ⟨"expense", 30, none, 0⟩,
        ⟨"expense", 10, some "Food", 0⟩, ⟨"income", 5, none, 0⟩] = 0 →
      spendingByCategory [⟨"expense", 60, some "Food", 0⟩, ⟨"expense", 30, none, 0⟩,
        ⟨"expense", 10, some "Food", 0⟩, ⟨"income", 5, none, 0⟩] = []) ∧
    (spendingByCategory [⟨"expense", 60, some "Food", 0⟩, ⟨"expense", 30, none, 0⟩,
        ⟨"expense", 10, some "Food", 0⟩, ⟨"income", 5, none, 0⟩]).Pairwise
      (fun a b => b.amount ≤ a.amount)) :=
  ⟨by intro t ht
      simp only [List.mem_cons, List.not_mem_nil, or_false] at ht
      rcases ht with rfl | rfl | rfl | rfl <;> norm_num,
    spending_by_category_breakdown _
      (by intro t ht
          simp only [List.mem_cons, List.not_mem_nil, or_false] at ht
          rcases ht with rfl | rfl | rfl | rfl <;> norm_num)⟩

/-- JavaScript `split(',')` on a string modelled as its character list: cut at
every comma, keeping empty tokens; the empty string yields one empty token. -/
def splitOnComma : List Char → List (List Char)
  | [] => [[]]
  | c :: cs =>
    if c = ',' then [] :: splitOnComma cs
    else
      match splitOnComma cs with
      | [] => [[c]]
      | tok :: toks => (c :: tok) :: toks

/-- Rejoining comma-separated tokens with commas. -/
def joinComma : List (List Char) → List Char
  | [] => []
  | [tok] => tok
  | tok :: toks => tok ++ ',' :: joinComma toks

/-- JavaScript `trim()`: drop whitespace from both ends. -/
def trimChars (l : List Char) : List Char :=
  ((l.dropWhile Char.isWhitespace).reverse.dropWhile Char.isWhitespace).reverse

/-- Embeds the tags field of `handleSubmit` in `Transactions.jsx`:
`formData.tags ? formData.tags.split(',').map(t => t.trim()) : []` — the
empty (falsy) string yields `[]`, anything else is comma-split with each
token trimmed. -/
def parseTags (tags : List Char) : List (List Char) :=
  if tags = [] then [] else (splitOnComma tags).map trimChars

lemma splitOnComma_ne_nil (l : List Char) : splitOnComma l ≠ [] := by
  cases l with
  | nil => simp [splitOnComma]
  | cons c cs =>
    rw [splitOnComma]
    by_cases hc : c = ','
    · simp [hc]
    · rw [if_neg hc]
      cases splitOnComma cs <;> simp

lemma joinComma_cons (tok : List Char) (toks : List (List Char)) (h : toks ≠ []) :
    joinComma (tok :: toks) = tok ++ ',' :: joinComma toks := by
  cases toks with
  | nil => exact absurd rfl h
  | cons t ts => rfl

lemma joinComma_splitOnComma (l : List Char) : joinComma (splitOnComma l) = l := by
  induction l with
  | nil => rfl
  | cons c cs ih =>
    rw [splitOnComma]
    by_cases hc : c = ','
    · rw [if_pos hc, joinComma_cons _ _ (splitOnComma_ne_nil cs), ih, hc]
      rfl
    · rw [if_neg hc]
      rcases hsp : splitOnComma cs with _ | ⟨tok, toks⟩
      · exact absurd hsp (splitOnComma_ne_nil cs)
      · rw [hsp] at ih
        cases toks with
        | nil =>
          simp only [joinComma] at ih ⊢
          rw [ih]
        | cons t ts =>
          rw [joinComma_cons _ _ (List.cons_ne_nil t ts)]
          rw [joinComma_cons _ _ (List.cons_ne_nil t ts)] at ih
          simp only [List.cons_append, List.cons.injEq, true_and]
          exact ih

lemma splitOnComma_no_comma (l : List Char) :
    ∀ tok ∈ splitOnComma l, ',' ∉ tok := by
  induction l with
  | nil => simp [splitOnComma]
  | cons c cs ih =>
    rw [splitOnComma]
    by_cases hc : c = ','
    · rw [if_pos hc]
      intro tok htok
      rcases List.mem_cons.mp htok with rfl | htok
      · simp
      · exact ih tok htok
    · rw [if_neg hc]
      rcases hsp : splitOnComma cs with _ | ⟨t, ts⟩
      · exact absurd hsp (splitOnComma_ne_nil cs)
      · rw [hsp] at ih
        intro tok htok
        rcases List.mem_cons.mp htok with rfl | htok
        · intro hmem
          rcases List.mem_cons.mp hmem with h1 | h1
          · exact hc h1.symm
          · exact ih t (List.mem_cons_self t ts) h1
        · exact ih tok (List.mem_cons_of_mem t htok)

/-- C9: the created transaction's tags are exactly the comma-separated tokens
of the input, each trimmed: the empty input yields `[]`; otherwise the token
list rejoins to the original input (so it is the full comma split), no token
contains a comma, every token is kept (same length, so tokens trimming to
empty survive), and each tag is the trim of its token; concretely,
`"a,, b "` yields `["a", "", "b"]` with the empty token kept. -/
theorem transaction_tags_comma_split (tags : List Char) (h : tags ≠ []) :
    parseTags [] = [] ∧
    parseTags tags = (splitOnComma tags).map trimChars ∧
    joinComma (splitOnComma tags) = tags ∧
    (∀ tok ∈ splitOnComma tags, ',' ∉ tok) ∧
    (parseTags tags).length = (splitOnComma tags).length ∧
    parseTags [Char.ofNat 97, ',', ',', ' ', Char.ofNat 98, ' ']
      = [[Char.ofNat 97], [], [Char.ofNat 98]] := by
  refine ⟨rfl, by rw [parseTags, if_neg h], joinComma_splitOnComma tags,
    splitOnComma_no_comma tags, ?_, by decide⟩
  rw [parseTags, if_neg h, List.length_map]

/-- Concrete instance of C9 on the placeholder example "food, groceries":
both tokens kept and trimmed. -/
theorem transaction_tags_comma_split_witness :
    (String.toList "food, groceries" ≠ []) ∧
    (parseTags [] = [] ∧
      parseTags (String.toList "food, groceries")
        = (splitOnComma (String.toList "food, groceries")).map trimChars ∧
      joinComma (splitOnComma (String.toList "food, groceries"))
        = String.toList "food, groceries" ∧
      (∀ tok ∈ splitOnComma (String.toList "food, groceries"), ',' ∉ tok) ∧
      (parseTags (String.toList "food, groceries")).length
        = (splitOnComma (String.toList "food, groceries")).length ∧
      parseTags [Char.ofNat 97, ',', ',', ' ', Char.ofNat 98, ' ']
        = [[Char.ofNat 97], [], [Char.ofNat 98]]) :=
  ⟨by decide, transaction_tags_comma_split (String.toList "food, groceries") (by decide)⟩

/-- JavaScript `toUpperCase()` modelled on character lists via Lean's ASCII
`Char.toUpper` (the symbols at issue are ASCII tickers). -/
def toUpperChars (l : List Char) : List Char :=
  l.map Char.toUpper

/-- Embeds the symbol input's onChange handler in `Investments.jsx`:
`setFormData({ ..., symbol: e.target.value.toUpperCase() })` — the stored
form value is the uppercased typed text. -/
def symbolFieldValue (typed : List Char) : List Char :=
  toUpperChars typed

/-- Embeds `handleSubmit` in `Investments.jsx`: `symbol:
formData.symbol.toUpperCase()` — the stored form value is uppercased again on
submission. -/
def submittedSymbol (typed : List Char) : List Char :=
  toUpperChars (symbolFieldValue typed)

lemma char_toNat_ofNat {m : Nat} (h : m.isValidChar) : (Char.ofNat m).toNat = m := by
  rw [Char.ofNat, dif_pos h]
  rfl

lemma char_toUpper_toUpper (c : Char) : c.toUpper.toUpper = c.toUpper := by
  unfold Char.toUpper
  by_cases h : c.toNat ≥ 97 ∧ c.toNat ≤ 122
  · simp only [if_pos h]
    have hv : (c.toNat - 32).isValidChar := Or.inl (by omega)
    rw [char_toNat_ofNat hv, if_neg (by omega)]
  · simp only [if_neg h]

lemma char_toUpper_not_lower (c : Char) : ¬ (97 ≤ c.toUpper.toNat ∧ c.toUpper.toNat ≤ 122) := by
  unfold Char.toUpper
  by_cases h : c.toNat ≥ 97 ∧ c.toNat ≤ 122
  · simp only [if_pos h]
    have hv : (c.toNat - 32).isValidChar := Or.inl (by omega)
    rw [char_toNat_ofNat hv]
    omega
  · simp only [if_neg h]
    omega

/-- C10: the symbol submitted to the backend is exactly the uppercase form of
the entered text — uppercasing happens on input and again at submission, the
operation is idempotent, and no character of the submitted symbol is a
lowercase ASCII letter. -/
theorem investment_symbol_uppercased (typed : List Char) :
    submittedSymbol typed = toUpperChars typed ∧
    toUpperChars (toUpperChars typed) = toUpperChars typed ∧
    (∀ c ∈ submittedSymbol typed, ¬ (97 ≤ c.toNat ∧ c.toNat ≤ 122)) := by
  have hidem : toUpperChars (toUpperChars typed) = toUpperChars typed := by
    rw [toUpperChars, toUpperChars, List.map_map]
    exact List.map_congr_left (fun c _ => char_toUpper_toUpper c)
  refine ⟨hidem, hidem, ?_⟩
  intro c hc
  rw [submittedSymbol, symbolFieldValue, hidem] at hc
  rcases List.mem_map.mp hc with ⟨c', _, rfl⟩
  exact char_toUpper_not_lower c'

end PersonalFinance
